import Mathlib

/-!
Verification of the resilient API client of the restaurant-voice-agent
frontend (`src/services/api.js`, configuration in `src/config.js`).

The development shallowly embeds the client:

* JavaScript runtime values that can appear as a parsed response body are
  modelled by `JSValue` (JSON values plus `undefined`); JavaScript
  truthiness, `typeof`, property access and string coercion are modelled
  by `jsTruthy`, `jsTypeof`, `getMember` and `jsToString`.
* `JSON.stringify` is modelled by `stringifyJSON` and `JSON.parse` by
  `parseJSON` (integer numerals; the escapes `\" \\ \n \t \r`; no
  insignificant whitespace — exactly the fragment `stringifyJSON`
  emits).  Floating-point numerals and `\u` escapes are out of scope.
* `fetchWithAuth` (lines 154-247 of `api.js`) is split into
  `buildRequest` (request construction, lines 156-176), `logRequestBody`
  (the development-mode logging block of lines 178-184, which runs ahead
  of the try block and can throw) and `fetchWithAuth` (the try/catch
  response/error handling of lines 186-246) over an explicit transport
  outcome `FetchOutcome`; `fetchWithAuthDev` composes the last two.
* The convenience wrappers `api.get/post/patch/delete` are modelled by
  `apiGetOptions` etc., producing the options object each wrapper passes
  to `fetchWithAuth`.
* `withRetry` (lines 437-469) is modelled by `retryLoop`/`withRetry`,
  which additionally record the number of invocations of the thunk and
  the list of back-off waits that were performed.
-/

/-!
## JavaScript values

`JSValue` models the JavaScript values relevant to the client: everything
`JSON.parse` can produce, plus `undefined` (the result of reading an
absent property).  Numbers are modelled as integers; floating-point
behaviour is outside the scope of this development.
-/

inductive JSValue where
  | vNull
  | vUndefined
  | vBool (b : Bool)
  | vNum (n : Int)
  | vStr (s : String)
  | vArr (elems : List JSValue)
  | vObj (fields : List (String × JSValue))

/-- Decimal digit character, `'0' + n` for `n < 10`. -/
def jsDigitChar (n : Nat) : Char := Char.ofNat (48 + n)

/-- Fuel-driven decimal printer for `Nat` (most significant digit first).
The fuel only needs to exceed the number of digits; `natChars` supplies
`n + 1`, which is always enough. -/
def natToCharsAux : Nat → Nat → List Char → List Char
  | 0, _, acc => acc
  | fuel + 1, n, acc =>
    if n < 10 then jsDigitChar n :: acc
    else natToCharsAux fuel (n / 10) (jsDigitChar (n % 10) :: acc)

/-- Decimal digits of a natural number, as JavaScript prints it. -/
def natChars (n : Nat) : List Char := natToCharsAux (n + 1) n []

/-- Decimal string of a natural number (JavaScript `String(n)` for
non-negative integers). -/
def natToString (n : Nat) : String := ⟨natChars n⟩

/-- Decimal digits of an integer (JavaScript `String(n)` for integers). -/
def intChars : Int → List Char
  | .ofNat m => natChars m
  | .negSucc m => '-' :: natChars (m + 1)

/-- JavaScript `typeof` on a `JSValue`.  Note the JavaScript quirk
`typeof null === "object"`, which the error-message extraction in
`fetchWithAuth` depends on. -/
def jsTypeof : JSValue → String
  | .vNull => "object"
  | .vUndefined => "undefined"
  | .vBool _ => "boolean"
  | .vNum _ => "number"
  | .vStr _ => "string"
  | .vArr _ => "object"
  | .vObj _ => "object"

/-- JavaScript truthiness: `null`, `undefined`, `false`, `0` and `""` are
falsy; every other modelled value (including `[]` and an empty object) is
truthy. -/
def jsTruthy : JSValue → Bool
  | .vNull => false
  | .vUndefined => false
  | .vBool b => b
  | .vNum n => n != 0
  | .vStr s => s != ""
  | .vArr _ => true
  | .vObj _ => true

/-- First field of the given name in an object's field list.  Real
JavaScript objects have unique keys, so which match is taken is
irrelevant for values denoting actual runtime objects. -/
def findField : List (String × JSValue) → String → JSValue
  | [], _ => .vUndefined
  | (k, v) :: fs, name => if k = name then v else findField fs name

/-- JavaScript property read `v.name`.  Reading from `null` or
`undefined` throws a `TypeError` (modelled as `Except.error` carrying the
V8 wording of the message); reading a missing property from any other
value yields `undefined`. -/
def getMember (v : JSValue) (name : String) : Except String JSValue :=
  match v with
  | .vNull => .error ("Cannot read properties of null (reading '" ++ name ++ "')")
  | .vUndefined => .error ("Cannot read properties of undefined (reading '" ++ name ++ "')")
  | .vObj fs => .ok (findField fs name)
  | _ => .ok .vUndefined

mutual

/-- JavaScript `String(v)` coercion, as applied by the `Error`
constructor to a non-string message value. -/
def jsToString : JSValue → String
  | .vNull => "null"
  | .vUndefined => "undefined"
  | .vBool true => "true"
  | .vBool false => "false"
  | .vNum n => ⟨intChars n⟩
  | .vStr s => s
  | .vArr xs => ⟨jsJoinChars xs⟩
  | .vObj _ => "[object Object]"

/-- Characters of `Array.prototype.join(",")`: elements separated by
commas, with `null` and `undefined` elements rendered as the empty
string. -/
def jsJoinChars : List JSValue → List Char
  | [] => []
  | [.vNull] => []
  | [.vUndefined] => []
  | [x] => (jsToString x).data
  | .vNull :: xs => ',' :: jsJoinChars xs
  | .vUndefined :: xs => ',' :: jsJoinChars xs
  | x :: xs => (jsToString x).data ++ ',' :: jsJoinChars xs

end

/-!
## JSON serialization (`JSON.stringify`)

The printer covers the fragment exercised by the client: integer
numerals, the escapes for `"` `\` and the common control characters
`\n` `\t` `\r`, and no insignificant whitespace.  (`JSON.stringify`
additionally escapes the rarer control characters with `\u` sequences;
`serializableB` below excludes those characters instead.)
-/

/-- Escape of a single string character under `JSON.stringify`. -/
def escapeJSONChar (c : Char) : List Char :=
  if c = '"' then ['\\', '"']
  else if c = '\\' then ['\\', '\\']
  else if c = '\n' then ['\\', 'n']
  else if c = '\t' then ['\\', 't']
  else if c = '\r' then ['\\', 'r']
  else [c]

/-- Escape of a whole character list. -/
def escapeJSONChars : List Char → List Char
  | [] => []
  | c :: cs => escapeJSONChar c ++ escapeJSONChars cs

/-- Characters of a JSON string literal: opening quote, escaped body,
closing quote. -/
def quoteChars (s : String) : List Char := '"' :: escapeJSONChars s.data ++ ['"']

mutual

/-- Characters `JSON.stringify` emits for a value.  For `undefined`
(which `serializableB` excludes) the array-element behaviour `"null"` is
used so that the printer is total. -/
def printVal : JSValue → List Char
  | .vNull => "null".data
  | .vUndefined => "null".data
  | .vBool true => "true".data
  | .vBool false => "false".data
  | .vNum n => intChars n
  | .vStr s => quoteChars s
  | .vArr xs => '[' :: printElems xs ++ [']']
  | .vObj fs => '\x7b' :: printFields fs ++ ['\x7d']

/-- Comma-separated rendering of array elements. -/
def printElems : List JSValue → List Char
  | [] => []
  | [x] => printVal x
  | x :: xs => printVal x ++ ',' :: printElems xs

/-- Comma-separated rendering of object fields as `"key":value`. -/
def printFields : List (String × JSValue) → List Char
  | [] => []
  | [(k, v)] => quoteChars k ++ ':' :: printVal v
  | (k, v) :: fs => quoteChars k ++ ':' :: printVal v ++ ',' :: printFields fs

end

/-- String of `JSON.stringify(v)`. -/
def stringifyJSON (v : JSValue) : String := ⟨printVal v⟩

/-- Characters the modelled printer/parser pair supports inside strings:
everything from space upwards plus the three escaped control
characters. -/
def jsonSafeChar (c : Char) : Bool :=
  32 ≤ c.toNat || c = '\n' || c = '\t' || c = '\r'

/-- String whose characters are all supported. -/
def jsonSafeString (s : String) : Bool := s.data.all jsonSafeChar

/-- Whether no field of the list has the given name (JavaScript objects
have unique keys). -/
def keyAbsent (k : String) : List (String × JSValue) → Bool
  | [] => true
  | (k2, _) :: fs => (k2 != k) && keyAbsent k fs

mutual

/-- JSON-serializable values: no `undefined`, strings within the
supported character set, and object keys unique (as in every actual
JavaScript object). -/
def serializableB : JSValue → Bool
  | .vNull => true
  | .vUndefined => false
  | .vBool _ => true
  | .vNum _ => true
  | .vStr s => jsonSafeString s
  | .vArr xs => serializableElems xs
  | .vObj fs => serializableFields fs

/-- Serializability of every array element. -/
def serializableElems : List JSValue → Bool
  | [] => true
  | x :: xs => serializableB x && serializableElems xs

/-- Serializability of every object field. -/
def serializableFields : List (String × JSValue) → Bool
  | [] => true
  | (k, v) :: fs => jsonSafeString k && serializableB v && keyAbsent k fs && serializableFields fs

end

/-!
## JSON parsing (`JSON.parse`)

A fuel-driven recursive-descent parser for the same fragment.  The fuel
decreases at each nesting level and each list step; an input length
bound is always sufficient fuel.
-/

/-- Decimal digit test. -/
def isDigitChar (c : Char) : Bool := 48 ≤ c.toNat && c.toNat ≤ 57

/-- Numeric value of a decimal digit character. -/
def digitVal (c : Char) : Nat := c.toNat - 48

/-- Consume a maximal run of decimal digits, extending the accumulator. -/
def parseDigitsAux : List Char → Nat → Nat × List Char
  | [], acc => (acc, [])
  | c :: cs, acc =>
    if isDigitChar c then parseDigitsAux cs (acc * 10 + digitVal c) else (acc, c :: cs)

/-- Interpretation of a JSON string escape character. -/
def unescapeChar (e : Char) : Option Char :=
  if e = '"' then some '"'
  else if e = '\\' then some '\\'
  else if e = 'n' then some '\n'
  else if e = 't' then some '\t'
  else if e = 'r' then some '\r'
  else if e = '/' then some '/'
  else none

/-- Parse the body of a JSON string literal up to and including the
closing quote, returning the unescaped characters and the remainder. -/
def parseStrBody : List Char → Option (List Char × List Char)
  | [] => none
  | c :: cs =>
    if c = '"' then some ([], cs)
    else if c = '\\' then
      match cs with
      | [] => none
      | e :: cs2 =>
        match unescapeChar e with
        | none => none
        | some d => (parseStrBody cs2).map fun pr => (d :: pr.1, pr.2)
    else (parseStrBody cs).map fun pr => (c :: pr.1, pr.2)

/-- Parse the elements of a non-empty JSON array after the opening
bracket, given a parser `p` for a single value. -/
def parseListAux (p : List Char → Option (JSValue × List Char)) :
    Nat → List Char → List JSValue → Option (List JSValue × List Char)
  | 0, _, _ => none
  | lfuel + 1, cs, acc =>
    match p cs with
    | none => none
    | some (v, rest) =>
      match rest with
      | [] => none
      | c :: r2 =>
        if c = ',' then parseListAux p lfuel r2 (acc ++ [v])
        else if c = ']' then some (acc ++ [v], r2)
        else none

/-- Parse the fields of a non-empty JSON object after the opening brace,
given a parser `p` for a single value. -/
def parseFieldsAux (p : List Char → Option (JSValue × List Char)) :
    Nat → List Char → List (String × JSValue) → Option (List (String × JSValue) × List Char)
  | 0, _, _ => none
  | lfuel + 1, cs, acc =>
    match cs with
    | [] => none
    | c :: cs1 =>
      if c = '"' then
        match parseStrBody cs1 with
        | none => none
        | some (kcs, r1) =>
          match r1 with
          | [] => none
          | c2 :: r2 =>
            if c2 = ':' then
              match p r2 with
              | none => none
              | some (v, r3) =>
                match r3 with
                | [] => none
                | c3 :: r4 =>
                  if c3 = ',' then parseFieldsAux p lfuel r4 (acc ++ [(⟨kcs⟩, v)])
                  else if c3 = '\x7d' then some (acc ++ [(⟨kcs⟩, v)], r4)
                  else none
            else none
      else none

/-- Parse a single JSON value, returning it and the unconsumed
remainder. -/
def parseVal : Nat → List Char → Option (JSValue × List Char)
  | 0, _ => none
  | fuel + 1, cs =>
    match cs with
    | [] => none
    | c :: rest =>
      if c = 'n' then
        match rest with
        | 'u' :: 'l' :: 'l' :: r => some (.vNull, r)
        | _ => none
      else if c = 't' then
        match rest with
        | 'r' :: 'u' :: 'e' :: r => some (.vBool true, r)
        | _ => none
      else if c = 'f' then
        match rest with
        | 'a' :: 'l' :: 's' :: 'e' :: r => some (.vBool false, r)
        | _ => none
      else if c = '"' then
        (parseStrBody rest).map fun pr => (.vStr ⟨pr.1⟩, pr.2)
      else if c = '[' then
        match rest with
        | [] => none
        | c2 :: r2 =>
          if c2 = ']' then some (.vArr [], r2)
          else (parseListAux (parseVal fuel) fuel (c2 :: r2) []).map fun pr => (.vArr pr.1, pr.2)
      else if c = '\x7b' then
        match rest with
        | [] => none
        | c2 :: r2 =>
          if c2 = '\x7d' then some (.vObj [], r2)
          else (parseFieldsAux (parseVal fuel) fuel (c2 :: r2) []).map fun pr => (.vObj pr.1, pr.2)
      else if c = '-' then
        match rest with
        | [] => none
        | c2 :: r2 =>
          if isDigitChar c2 then
            let pr := parseDigitsAux r2 (digitVal c2)
            some (.vNum (-(pr.1 : Int)), pr.2)
          else none
      else if isDigitChar c then
        let pr := parseDigitsAux rest (digitVal c)
        some (.vNum (pr.1 : Int), pr.2)
      else none

/-- JavaScript `JSON.parse` on the modelled fragment: parse one value
and require the whole input to be consumed. -/
def parseJSON (s : String) : Option JSValue :=
  match parseVal (s.length + 1) s.data with
  | some (v, []) => some v
  | _ => none

/-!
## The typed failure (`ApiError`, api.js lines 92-106)

`ApiError extends Error` with a `status` code and a `data` payload.  The
`Error` constructor coerces a non-string message with `String(...)`,
modelled by `jsToString` at the construction sites.
-/

structure ApiError where
  message : String
  status : Nat
  data : JSValue

/-- Exact user-facing message of the transport-failure branch
(api.js line 242). -/
def networkErrorMessage : String :=
  "Network error. Please check your connection and try again."

/-- The `ApiError` thrown for transport failures and any other non-`ApiError`
exception caught in `fetchWithAuth` (api.js lines 241-245): status 0 and a
payload carrying the underlying error's message. -/
def networkApiError (m : String) : ApiError :=
  ⟨networkErrorMessage, 0, .vObj [("originalError", .vStr m)]⟩

/-!
## The transport environment

A `Response` records what the server returned: status, reason phrase,
`content-type` header, the outcome of `response.json()` (which rejects on
a malformed body) and the text body.  A `FetchOutcome` is either a
response or a rejection of `fetch` itself (DNS failure, connection
refused, CORS, timeout), carrying the transport error's message.
-/

structure Response where
  status : Nat
  statusText : String
  contentType : Option String
  json : Except String JSValue
  text : String

/-- The Fetch standard's `Response.ok`: status in the inclusive range
200-299. -/
def Response.ok (r : Response) : Bool := 200 ≤ r.status && r.status ≤ 299

inductive FetchOutcome where
  | resp (r : Response)
  | reject (message : String)

/-- Whether the first list starts the second one. -/
def charsStartOf : List Char → List Char → Bool
  | [], _ => true
  | _ :: _, [] => false
  | c :: cs, d :: ds => (c == d) && charsStartOf cs ds

/-- Whether the first list occurs contiguously inside the second
(JavaScript `String.prototype.includes`). -/
def charsInsideOf (needle : List Char) : List Char → Bool
  | [] => charsStartOf needle []
  | d :: ds => charsStartOf needle (d :: ds) || charsInsideOf needle ds

/-- The content-type test of api.js line 193:
`contentType && contentType.includes('application/json')`. -/
def contentTypeIsJson : Option String → Bool
  | none => false
  | some ct => charsInsideOf "application/json".data ct.data

/-- Body parsing of api.js lines 191-197: `response.json()` when the
content type indicates JSON, `response.text()` otherwise. -/
def parseResponseBody (r : Response) : Except String JSValue :=
  if contentTypeIsJson r.contentType then r.json else .ok (.vStr r.text)

/-- The fallback error message of api.js line 205:
`HTTP (status): (statusText)`. -/
def httpFallbackMessage (status : Nat) (statusText : String) : String :=
  "HTTP " ++ natToString status ++ ": " ++ statusText

/-- The error-message expression of api.js lines 202-205:

`(typeof data === 'object' && data.message) || (typeof data === 'string' && data) || fallback`.

Evaluating `data.message` throws a `TypeError` when `data` is `null`
(because `typeof null === 'object'`); the `Except.error` branch carries
that exception's message. -/
def errorMessageValue (data : JSValue) (status : Nat) (statusText : String) :
    Except String JSValue :=
  match (if jsTypeof data = "object" then getMember data "message" else .ok (.vBool false)) with
  | .error m => .error m
  | .ok t1 =>
    if jsTruthy t1 then .ok t1
    else
      let t2 := if jsTypeof data = "string" then data else JSValue.vBool false
      if jsTruthy t2 then .ok t2
      else .ok (.vStr (httpFallbackMessage status statusText))

/-- Response and error handling of `fetchWithAuth` (api.js lines
186-246) given the transport outcome:

* `fetch` rejection: the catch block wraps the error (not an `ApiError`)
  into `networkApiError`;
* body-parse rejection: likewise wrapped into `networkApiError`;
* non-2xx status: an `ApiError` with the extracted message, the real
  status and the parsed body is thrown and re-thrown as-is by the catch
  block — unless extracting the message itself threw (`null` body), in
  which case the catch block wraps that `TypeError` into
  `networkApiError`;
* 2xx status: the parsed body is returned unchanged.

This function models the try/catch body only; the development-mode
logging block of lines 178-184, which runs before the try block and can
itself throw, is modelled separately by `logRequestBody`, and the
composition of the two by `fetchWithAuthDev`. -/
def fetchWithAuth (outcome : FetchOutcome) : Except ApiError JSValue :=
  match outcome with
  | .reject m => .error (networkApiError m)
  | .resp r =>
    match parseResponseBody r with
    | .error m => .error (networkApiError m)
    | .ok data =>
      if r.ok then .ok data
      else
        match errorMessageValue data r.status r.statusText with
        | .error m => .error (networkApiError m)
        | .ok mv => .error ⟨jsToString mv, r.status, data⟩

/-!
## Request construction (api.js lines 154-184) and the `api` wrappers
(lines 285-384)

Headers are a plain JavaScript object: the literal
`(Content-Type, then ...options.headers spread, then conditional
X-API-Key assignment)` is modelled by `hset`/`hmerge` over an
insertion-ordered association list with unique keys.
-/

/-- JavaScript object property assignment `m[k] = v`: update in place if
the key exists, append otherwise. -/
def hset (m : List (String × String)) (k v : String) : List (String × String) :=
  if m.any (fun kv => kv.1 == k) then m.map (fun kv => if kv.1 == k then (k, v) else kv)
  else m ++ [(k, v)]

/-- Object spread `(...base, ...extra)`: assign every property of
`extra` over `base` in order. -/
def hmerge (base extra : List (String × String)) : List (String × String) :=
  extra.foldl (fun m kv => hset m kv.1 kv.2) base

/-- Property read on the header object. -/
def hLookup : List (String × String) → String → Option String
  | [], _ => none
  | kv :: rest, k => if kv.1 == k then some kv.2 else hLookup rest k

/-- The header object built by api.js lines 159-170:
`(Content-Type: application/json, ...options.headers)`, then
`headers['X-API-Key'] = config.API_KEY` if `config.API_KEY` is truthy
(an unset key is `undefined`; the empty string is also falsy). -/
def buildHeaders (optionHeaders : List (String × String)) (apiKey : Option String) :
    List (String × String) :=
  let merged := hmerge [("Content-Type", "application/json")] optionHeaders
  match apiKey with
  | some key => if key = "" then merged else hset merged "X-API-Key" key
  | none => merged

/-- The fetch options a caller may pass (the fields the client reads or
sets). -/
structure RequestOptions where
  method : Option String := none
  body : Option String := none
  headers : List (String × String) := []

/-- The request actually handed to `fetch` (api.js lines 156, 173-176,
188): full URL, merged options with the built header object. -/
structure BuiltRequest where
  url : String
  method : Option String
  body : Option String
  headers : List (String × String)

/-- Request construction of api.js lines 154-176 for configured
`config.API_URL` and `config.API_KEY`. -/
def buildRequest (apiURL endpoint : String) (apiKey : Option String)
    (options : RequestOptions) : BuiltRequest :=
  { url := apiURL ++ endpoint
    method := options.method
    body := options.body
    headers := buildHeaders options.headers apiKey }

/-- Options `api.get` passes to `fetchWithAuth` (api.js lines 301-306):
the caller's options spread first, then `method: 'GET'`. -/
def apiGetOptions (options : RequestOptions) : RequestOptions :=
  { options with method := some "GET" }

/-- Options `api.post` passes (api.js lines 329-335): caller's options,
then `method: 'POST'` and the JSON-serialized body. -/
def apiPostOptions (data : JSValue) (options : RequestOptions) : RequestOptions :=
  { options with method := some "POST", body := some (stringifyJSON data) }

/-- Options `api.patch` passes (api.js lines 355-361). -/
def apiPatchOptions (data : JSValue) (options : RequestOptions) : RequestOptions :=
  { options with method := some "PATCH", body := some (stringifyJSON data) }

/-- Options `api.delete` passes (api.js lines 378-383). -/
def apiDeleteOptions (options : RequestOptions) : RequestOptions :=
  { options with method := some "DELETE" }

/-- Message of the uncaught `SyntaxError` thrown by `JSON.parse` on an
invalid body string in the logging block (the exact wording is
engine-specific; V8 reports `Unexpected token ...`). -/
def bodyParseErrorMessage (b : String) : String :=
  "Unexpected token, \"" ++ b ++ "\" is not valid JSON"

/-- The development-mode request-logging block of api.js lines 178-184.
It runs BEFORE the try block: when `config.isDevelopment` holds and
`options.body` is truthy (a non-empty string), it evaluates
`JSON.parse(options.body)` (modelled by `parseJSON`) purely in order to
log the parsed body — so a body that is not valid JSON makes this block
throw a `SyntaxError` that no handler in `fetchWithAuth` catches. -/
def logRequestBody (isDevelopment : Bool) (options : RequestOptions) : Except String Unit :=
  if isDevelopment then
    match options.body with
    | none => .ok ()
    | some b =>
      if b = "" then .ok ()
      else
        match parseJSON b with
        | some _ => .ok ()
        | none => .error (bodyParseErrorMessage b)
  else .ok ()

/-- The whole of `fetchWithAuth` as called: the logging prelude of
api.js lines 178-184 followed by the try/catch body (`fetchWithAuth`).
The outer `Except.error` is an exception that escaped the function
UNTYPED — thrown before the try block, it is caught by nothing and is
not an `ApiError`; the outer `Except.ok` carries the usual typed
outcome. -/
def fetchWithAuthDev (isDevelopment : Bool) (options : RequestOptions)
    (outcome : FetchOutcome) : Except String (Except ApiError JSValue) :=
  match logRequestBody isDevelopment options with
  | .error m => .error m
  | .ok _ => .ok (fetchWithAuth outcome)

/-!
## The retry wrapper (`withRetry`, api.js lines 437-469)

`retryLoop apiCall maxRetries delayMs attempt` models the `for` loop
from iteration `attempt` on.  The thunk is modelled as a function of the
attempt number (its n-th invocation).  Besides the result, the model
records how often the thunk was invoked and which back-off waits were
performed, so the scheduling claims are statable.  `RetryOutcome.undef`
is the JavaScript `undefined` the function resolves to when the loop
body never runs.
-/

inductive RetryOutcome (α : Type) where
  | success (v : α)
  | failure (e : ApiError)
  | undef

structure RetryTrace (α : Type) where
  result : RetryOutcome α
  calls : Nat
  waits : List Nat

/-- The retry loop of api.js lines 439-468.  Each iteration invokes the
thunk; a failure with a 4xx status is re-raised immediately; a failure
on the last attempt is re-raised; otherwise the loop waits
`delayMs * 2 ^ (attempt - 1)` milliseconds and continues. -/
def retryLoop {α : Type} (apiCall : Nat → Except ApiError α)
    (maxRetries delayMs attempt : Nat) : RetryTrace α :=
  if attempt ≤ maxRetries then
    match apiCall attempt with
    | .ok v => ⟨.success v, 1, []⟩
    | .error e =>
      if 400 ≤ e.status ∧ e.status < 500 then ⟨.failure e, 1, []⟩
      else if attempt = maxRetries then ⟨.failure e, 1, []⟩
      else
        let t := retryLoop apiCall maxRetries delayMs (attempt + 1)
        ⟨t.result, t.calls + 1, delayMs * 2 ^ (attempt - 1) :: t.waits⟩
  else ⟨.undef, 0, []⟩
termination_by maxRetries + 1 - attempt
decreasing_by omega

/-- `withRetry(apiCall, maxRetries, delayMs)` (api.js line 437): run the
loop from attempt 1. -/
def withRetry {α : Type} (apiCall : Nat → Except ApiError α)
    (maxRetries delayMs : Nat) : RetryTrace α :=
  retryLoop apiCall maxRetries delayMs 1

/-!
## Lemmas: decimal digits
-/

/-- Accumulator step for reading a decimal digit run. -/
def digitStep (a : Nat) (c : Char) : Nat := a * 10 + digitVal c

/-- Whether the input does not continue with a digit (so a maximal digit
run ends here). -/
def headNotDigit : List Char → Bool
  | [] => true
  | c :: _ => !isDigitChar c

theorem digitVal_jsDigitChar (n : Nat) (h : n < 10) : digitVal (jsDigitChar n) = n := by
  interval_cases n <;> decide

theorem isDigitChar_jsDigitChar (n : Nat) (h : n < 10) : isDigitChar (jsDigitChar n) = true := by
  interval_cases n <;> decide

theorem natToCharsAux_fuel (n : Nat) : ∀ (fuel : Nat) (acc : List Char), n < fuel →
    natToCharsAux fuel n acc = natChars n ++ acc := by
  induction n using Nat.strong_induction_on with
  | _ n ih =>
    intro fuel acc hlt
    match fuel with
    | f + 1 =>
      by_cases h10 : n < 10
      · simp [natToCharsAux, natChars, h10]
      · have hdiv : n / 10 < n := Nat.div_lt_self (by omega) (by omega)
        rw [natToCharsAux, if_neg h10]
        rw [ih (n / 10) hdiv f (jsDigitChar (n % 10) :: acc) (by omega)]
        have hn : natChars n = natChars (n / 10) ++ [jsDigitChar (n % 10)] := by
          rw [natChars, natToCharsAux, if_neg h10]
          exact ih (n / 10) hdiv n [jsDigitChar (n % 10)] (by omega)
        rw [hn, List.append_assoc]
        rfl

theorem natChars_small (n : Nat) (h : n < 10) : natChars n = [jsDigitChar n] := by
  simp [natChars, natToCharsAux, h]

theorem natChars_step (n : Nat) (h : ¬ n < 10) :
    natChars n = natChars (n / 10) ++ [jsDigitChar (n % 10)] := by
  rw [natChars, natToCharsAux, if_neg h]
  exact natToCharsAux_fuel (n / 10) n [jsDigitChar (n % 10)]
    (by have := Nat.div_lt_self (show 0 < n by omega) (show 1 < 10 by omega); omega)

theorem natChars_ne_nil (n : Nat) : natChars n ≠ [] := by
  by_cases h10 : n < 10
  · rw [natChars_small n h10]; simp
  · rw [natChars_step n h10]; simp

theorem natChars_all_digits (n : Nat) : ∀ c ∈ natChars n, isDigitChar c = true := by
  induction n using Nat.strong_induction_on with
  | _ n ih =>
    by_cases h10 : n < 10
    · rw [natChars_small n h10]
      intro c hc
      rw [List.mem_singleton] at hc
      subst hc
      exact isDigitChar_jsDigitChar n h10
    · rw [natChars_step n h10]
      intro c hc
      rw [List.mem_append] at hc
      rcases hc with hc | hc
      · exact ih (n / 10) (Nat.div_lt_self (by omega) (by omega)) c hc
      · rw [List.mem_singleton] at hc
        subst hc
        exact isDigitChar_jsDigitChar (n % 10) (Nat.mod_lt n (by omega))

theorem natChars_foldl (n : Nat) : ∀ a : Nat,
    (natChars n).foldl digitStep a = a * 10 ^ (natChars n).length + n := by
  induction n using Nat.strong_induction_on with
  | _ n ih =>
    intro a
    by_cases h10 : n < 10
    · rw [natChars_small n h10]
      simp [digitStep, digitVal_jsDigitChar n h10]
    · rw [natChars_step n h10]
      rw [List.foldl_append]
      rw [ih (n / 10) (Nat.div_lt_self (by omega) (by omega)) a]
      simp only [List.foldl, List.length_append, List.length_singleton]
      rw [digitStep, digitVal_jsDigitChar (n % 10) (Nat.mod_lt n (by omega))]
      rw [pow_succ]
      have := Nat.div_add_mod n 10
      ring_nf
      omega

theorem parseDigitsAux_spec : ∀ (ds rest : List Char) (a : Nat),
    (∀ c ∈ ds, isDigitChar c = true) → headNotDigit rest = true →
    parseDigitsAux (ds ++ rest) a = (ds.foldl digitStep a, rest) := by
  intro ds
  induction ds with
  | nil =>
    intro rest a _ hrest
    match rest with
    | [] => rfl
    | c :: cs =>
      simp only [headNotDigit, Bool.not_eq_true'] at hrest
      simp [parseDigitsAux, hrest]
  | cons d ds ih =>
    intro rest a hds hrest
    have hd : isDigitChar d = true := hds d (List.mem_cons_self ..)
    simp only [List.cons_append, parseDigitsAux, hd, if_true, List.append_eq]
    rw [ih rest (a * 10 + digitVal d) (fun c hc => hds c (List.mem_cons_of_mem d hc)) hrest]
    rfl

theorem parseDigits_natChars (m : Nat) (rest : List Char) (hrest : headNotDigit rest = true) :
    ∃ c ds, natChars m = c :: ds ∧ isDigitChar c = true ∧
      parseDigitsAux (ds ++ rest) (digitVal c) = (m, rest) := by
  obtain ⟨c, ds, hcds⟩ : ∃ c ds, natChars m = c :: ds := by
    match h : natChars m with
    | [] => exact absurd h (natChars_ne_nil m)
    | c :: ds => exact ⟨c, ds, rfl⟩
  refine ⟨c, ds, hcds, ?_, ?_⟩
  · exact natChars_all_digits m c (by rw [hcds]; exact List.mem_cons_self ..)
  · rw [parseDigitsAux_spec ds rest (digitVal c)
      (fun x hx => natChars_all_digits m x (by rw [hcds]; exact List.mem_cons_of_mem c hx)) hrest]
    have hv := natChars_foldl m 0
    rw [hcds] at hv
    simp only [List.foldl, digitStep, Nat.zero_mul, Nat.zero_add] at hv
    rw [hv]

/-!
## Lemmas: string escaping, printer shape
-/

theorem parseStrBody_escape : ∀ (cs rest : List Char),
    parseStrBody (escapeJSONChars cs ++ '"' :: rest) = some (cs, rest) := by
  intro cs
  induction cs with
  | nil =>
    intro rest
    simp only [escapeJSONChars, List.nil_append]
    rw [parseStrBody.eq_def]
    simp
  | cons c cs ih =>
    intro rest
    by_cases h1 : c = '"'
    · subst h1
      have he : escapeJSONChar '"' = ['\\', '"'] := rfl
      rw [escapeJSONChars, he]
      simp only [List.cons_append, List.nil_append, List.append_assoc]
      rw [parseStrBody.eq_def]
      simp +decide [unescapeChar, ih]
    · by_cases h2 : c = '\\'
      · subst h2
        have he : escapeJSONChar '\\' = ['\\', '\\'] := rfl
        rw [escapeJSONChars, he]
        simp only [List.cons_append, List.nil_append, List.append_assoc]
        rw [parseStrBody.eq_def]
        simp +decide [unescapeChar, ih]
      · by_cases h3 : c = '\n'
        · subst h3
          have he : escapeJSONChar '\n' = ['\\', 'n'] := rfl
          rw [escapeJSONChars, he]
          simp only [List.cons_append, List.nil_append, List.append_assoc]
          rw [parseStrBody.eq_def]
          simp +decide [unescapeChar, ih]
        · by_cases h4 : c = '\t'
          · subst h4
            have he : escapeJSONChar '\t' = ['\\', 't'] := rfl
            rw [escapeJSONChars, he]
            simp only [List.cons_append, List.nil_append, List.append_assoc]
            rw [parseStrBody.eq_def]
            simp +decide [unescapeChar, ih]
          · by_cases h5 : c = '\r'
            · subst h5
              have he : escapeJSONChar '\r' = ['\\', 'r'] := rfl
              rw [escapeJSONChars, he]
              simp only [List.cons_append, List.nil_append, List.append_assoc]
              rw [parseStrBody.eq_def]
              simp +decide [unescapeChar, ih]
            · have he : escapeJSONChar c = [c] := by
                rw [escapeJSONChar, if_neg h1, if_neg h2, if_neg h3, if_neg h4, if_neg h5]
              rw [escapeJSONChars, he]
              simp only [List.cons_append, List.nil_append, List.append_assoc]
              rw [parseStrBody.eq_def]
              simp [h1, h2, ih]

theorem digit_ne_of (c d : Char) (hc : isDigitChar c = true) (hd : isDigitChar d = false) :
    c ≠ d := by
  intro h
  subst h
  rw [hc] at hd
  cases hd

theorem printVal_ne_nil (v : JSValue) : printVal v ≠ [] := by
  cases v with
  | vNum n =>
    cases n with
    | ofNat m => simpa [printVal, intChars] using natChars_ne_nil m
    | negSucc m => simp [printVal, intChars]
  | vBool b => cases b <;> simp [printVal]
  | vStr s => simp [printVal, quoteChars]
  | _ => simp [printVal]

theorem printVal_length_pos (v : JSValue) : 0 < (printVal v).length := by
  have := printVal_ne_nil v
  cases h : printVal v with
  | nil => exact absurd h this
  | cons c r => simp [h]

theorem printVal_head_ne (v : JSValue) : ∃ c r, printVal v = c :: r ∧ ¬ c = ']' := by
  cases v with
  | vNull => exact ⟨'n', _, rfl, by decide⟩
  | vUndefined => exact ⟨'n', _, rfl, by decide⟩
  | vBool b =>
    cases b with
    | false => exact ⟨'f', _, rfl, by decide⟩
    | true => exact ⟨'t', _, rfl, by decide⟩
  | vNum n =>
    cases n with
    | ofNat m =>
      obtain ⟨c, ds, hcds, hdig, _⟩ := parseDigits_natChars m [] (by rfl)
      refine ⟨c, ds, by simpa [printVal, intChars] using hcds, ?_⟩
      exact digit_ne_of c ']' hdig (by decide)
    | negSucc m => exact ⟨'-', _, rfl, by decide⟩
  | vStr s => exact ⟨'"', _, rfl, by decide⟩
  | vArr xs => exact ⟨'[', _, rfl, by decide⟩
  | vObj fs => exact ⟨'\x7b', _, rfl, by decide⟩

theorem printElems_starts (x : JSValue) (xs : List JSValue) :
    ∃ t, printElems (x :: xs) = printVal x ++ t := by
  cases xs with
  | nil => exact ⟨[], by simp [printElems]⟩
  | cons y ys => exact ⟨',' :: printElems (y :: ys), by simp [printElems]⟩

theorem printFields_starts (k : String) (v : JSValue) (fs : List (String × JSValue)) :
    ∃ t, printFields ((k, v) :: fs) = '"' :: (escapeJSONChars k.data ++ '"' :: ':' :: printVal v ++ t) := by
  cases fs with
  | nil =>
    refine ⟨[], ?_⟩
    simp [printFields, quoteChars]
  | cons g gs =>
    refine ⟨',' :: printFields (g :: gs), ?_⟩
    simp [printFields, quoteChars]

theorem length_le_printElems : ∀ xs : List JSValue, xs.length ≤ (printElems xs).length := by
  intro xs
  induction xs with
  | nil => simp [printElems]
  | cons x xs ih =>
    cases xs with
    | nil =>
      simpa [printElems] using printVal_length_pos x
    | cons y ys =>
      have hx := printVal_length_pos x
      simp only [printElems, List.length_append, List.length_cons]
      simp only [List.length_cons] at ih ⊢
      omega

theorem mem_printElems_le : ∀ (xs : List JSValue) (x : JSValue), x ∈ xs →
    (printVal x).length ≤ (printElems xs).length := by
  intro xs
  induction xs with
  | nil => intro x hx; cases hx
  | cons y ys ih =>
    intro x hx
    cases ys with
    | nil =>
      rw [List.mem_singleton] at hx
      subst hx
      simp [printElems]
    | cons z zs =>
      rcases List.mem_cons.mp hx with hx | hx
      · subst hx
        simp [printElems]
      · have := ih x hx
        simp only [printElems, List.length_append, List.length_cons]
        omega

theorem length_le_printFields : ∀ fs : List (String × JSValue),
    fs.length ≤ (printFields fs).length := by
  intro fs
  induction fs with
  | nil => simp [printFields]
  | cons g gs ih =>
    obtain ⟨k, v⟩ := g
    cases gs with
    | nil => simp [printFields, quoteChars]
    | cons g2 gs2 =>
      simp only [printFields, quoteChars, List.length_append, List.length_cons] at ih ⊢
      omega

theorem mem_printFields_le : ∀ (fs : List (String × JSValue)) (kv : String × JSValue), kv ∈ fs →
    (printVal kv.2).length ≤ (printFields fs).length := by
  intro fs
  induction fs with
  | nil => intro kv hkv; cases hkv
  | cons g gs ih =>
    intro kv hkv
    obtain ⟨k, v⟩ := g
    cases gs with
    | nil =>
      rw [List.mem_singleton] at hkv
      subst hkv
      simp only [printFields, quoteChars, List.length_append, List.length_cons]
      omega
    | cons g2 gs2 =>
      rcases List.mem_cons.mp hkv with hkv | hkv
      · subst hkv
        simp only [printFields, quoteChars, List.length_append, List.length_cons]
        omega
      · have := ih kv hkv
        simp only [printFields, quoteChars, List.length_append, List.length_cons] at this ⊢
        omega

theorem serializableElems_mem : ∀ (xs : List JSValue), serializableElems xs = true →
    ∀ x ∈ xs, serializableB x = true := by
  intro xs
  induction xs with
  | nil => intro _ x hx; cases hx
  | cons y ys ih =>
    intro hser x hx
    rw [serializableElems, Bool.and_eq_true] at hser
    rcases List.mem_cons.mp hx with hx | hx
    · subst hx; exact hser.1
    · exact ih hser.2 x hx

theorem serializableFields_mem : ∀ (fs : List (String × JSValue)), serializableFields fs = true →
    ∀ kv ∈ fs, serializableB kv.2 = true := by
  intro fs
  induction fs with
  | nil => intro _ kv hkv; cases hkv
  | cons g gs ih =>
    intro hser kv hkv
    obtain ⟨k, v⟩ := g
    rw [serializableFields, Bool.and_eq_true, Bool.and_eq_true, Bool.and_eq_true] at hser
    rcases List.mem_cons.mp hkv with hkv | hkv
    · subst hkv; exact hser.1.1.2
    · exact ih hser.2 kv hkv

/-!
## Lemmas: array and object element parsing
-/

/-- Inputs a printed value may legally be followed by during parsing:
nothing, or a separator/terminator character. -/
def restSafe : List Char → Bool
  | [] => true
  | c :: _ => (c == ',') || (c == ']') || (c == '\x7d')

theorem restSafe_headNotDigit (r : List Char) (h : restSafe r = true) :
    headNotDigit r = true := by
  match r with
  | [] => rfl
  | c :: cs =>
    simp only [restSafe, Bool.or_eq_true, beq_iff_eq] at h
    rcases h with (h | h) | h <;> subst h <;> rfl

theorem parseListAux_spec (p : List Char → Option (JSValue × List Char)) :
    ∀ (xs : List JSValue), xs ≠ [] →
    (∀ x ∈ xs, ∀ r, restSafe r = true → p (printVal x ++ r) = some (x, r)) →
    ∀ (lfuel : Nat), xs.length ≤ lfuel →
    ∀ (acc : List JSValue) (rest : List Char),
    parseListAux p lfuel (printElems xs ++ ']' :: rest) acc = some (acc ++ xs, rest) := by
  intro xs
  induction xs with
  | nil => intro h; exact absurd rfl h
  | cons x xs ih =>
    intro _ hp lfuel hlen acc rest
    match lfuel with
    | lf + 1 =>
      cases xs with
      | nil =>
        rw [show printElems [x] = printVal x from rfl]
        simp only [parseListAux]
        rw [hp x (List.mem_singleton_self x) (']' :: rest) rfl]
        simp +decide
      | cons y ys =>
        rw [show printElems (x :: y :: ys) = printVal x ++ ',' :: printElems (y :: ys) from rfl]
        simp only [List.append_assoc, List.cons_append]
        simp only [parseListAux]
        rw [hp x (List.mem_cons_self ..) (',' :: (printElems (y :: ys) ++ ']' :: rest)) rfl]
        simp +decide only []
        rw [ih (by simp) (fun z hz r hr => hp z (List.mem_cons_of_mem x hz) r hr) lf
          (by simp at hlen ⊢; omega) (acc ++ [x]) rest]
        simp

theorem parseFieldsAux_spec (p : List Char → Option (JSValue × List Char)) :
    ∀ (fs : List (String × JSValue)), fs ≠ [] →
    (∀ kv ∈ fs, ∀ r, restSafe r = true → p (printVal kv.2 ++ r) = some (kv.2, r)) →
    ∀ (lfuel : Nat), fs.length ≤ lfuel →
    ∀ (acc : List (String × JSValue)) (rest : List Char),
    parseFieldsAux p lfuel (printFields fs ++ '\x7d' :: rest) acc = some (acc ++ fs, rest) := by
  intro fs
  induction fs with
  | nil => intro h; exact absurd rfl h
  | cons g fs ih =>
    intro _ hp lfuel hlen acc rest
    obtain ⟨k, v⟩ := g
    match lfuel with
    | lf + 1 =>
      cases fs with
      | nil =>
        rw [show printFields [(k, v)] = quoteChars k ++ ':' :: printVal v from rfl]
        rw [quoteChars]
        simp only [List.append_assoc, List.cons_append, List.nil_append]
        simp only [parseFieldsAux]
        rw [parseStrBody_escape k.data (':' :: (printVal v ++ '\x7d' :: rest))]
        simp +decide only []
        rw [hp (k, v) (List.mem_singleton_self _) ('\x7d' :: rest) rfl]
        simp +decide
      | cons g2 gs2 =>
        rw [show printFields ((k, v) :: g2 :: gs2) =
          quoteChars k ++ ':' :: printVal v ++ ',' :: printFields (g2 :: gs2) from rfl]
        rw [quoteChars]
        simp only [List.append_assoc, List.cons_append, List.nil_append]
        simp only [parseFieldsAux]
        rw [parseStrBody_escape k.data
          (':' :: (printVal v ++ ',' :: (printFields (g2 :: gs2) ++ '\x7d' :: rest)))]
        simp +decide only []
        rw [hp (k, v) (List.mem_cons_self ..)
          (',' :: (printFields (g2 :: gs2) ++ '\x7d' :: rest)) rfl]
        simp +decide only []
        rw [ih (by simp) (fun z hz r hr => hp z (List.mem_cons_of_mem (k, v) hz) r hr) lf
          (by simp at hlen ⊢; omega) (acc ++ [(k, v)]) rest]
        simp

/-!
## The printer/parser round trip
-/

theorem parseVal_print : ∀ (fuel : Nat) (v : JSValue), serializableB v = true →
    (printVal v).length < fuel → ∀ rest, restSafe rest = true →
    parseVal fuel (printVal v ++ rest) = some (v, rest) := by
  intro fuel
  induction fuel with
  | zero =>
    intro v _ hlen
    exact absurd hlen (Nat.not_lt_zero _)
  | succ f ih =>
    intro v hser hlen rest hrest
    cases v with
    | vNull =>
      rw [show printVal .vNull = 'n' :: 'u' :: 'l' :: 'l' :: [] from rfl]
      simp only [List.cons_append, List.nil_append]
      simp +decide [parseVal]
    | vUndefined =>
      simp [serializableB] at hser
    | vBool b =>
      cases b with
      | false =>
        rw [show printVal (.vBool false) = 'f' :: 'a' :: 'l' :: 's' :: 'e' :: [] from rfl]
        simp only [List.cons_append, List.nil_append]
        simp +decide [parseVal]
      | true =>
        rw [show printVal (.vBool true) = 't' :: 'r' :: 'u' :: 'e' :: [] from rfl]
        simp only [List.cons_append, List.nil_append]
        simp +decide [parseVal]
    | vNum n =>
      have hnd := restSafe_headNotDigit rest hrest
      cases n with
      | ofNat m =>
        obtain ⟨c, ds, hcds, hdig, hpd⟩ := parseDigits_natChars m rest hnd
        rw [show printVal (.vNum (.ofNat m)) = natChars m from rfl, hcds]
        simp only [List.cons_append]
        simp only [parseVal]
        rw [if_neg (digit_ne_of c 'n' hdig (by decide)),
          if_neg (digit_ne_of c 't' hdig (by decide)),
          if_neg (digit_ne_of c 'f' hdig (by decide)),
          if_neg (digit_ne_of c '"' hdig (by decide)),
          if_neg (digit_ne_of c '[' hdig (by decide)),
          if_neg (digit_ne_of c '\x7b' hdig (by decide)),
          if_neg (digit_ne_of c '-' hdig (by decide)),
          if_pos hdig]
        simp [hpd]
      | negSucc m =>
        obtain ⟨c, ds, hcds, hdig, hpd⟩ := parseDigits_natChars (m + 1) rest hnd
        rw [show printVal (.vNum (.negSucc m)) = '-' :: natChars (m + 1) from rfl, hcds]
        simp only [List.cons_append]
        simp only [parseVal]
        simp +decide only []
        rw [if_pos hdig]
        simp [hpd]
        rw [Int.negSucc_eq]
        ring
    | vStr s =>
      rw [show printVal (.vStr s) = '"' :: (escapeJSONChars s.data ++ ['"']) from rfl]
      simp only [List.cons_append, List.append_assoc, List.nil_append]
      simp +decide only [parseVal]
      rw [parseStrBody_escape s.data rest]
      rfl
    | vArr xs =>
      cases xs with
      | nil =>
        rw [show printVal (.vArr []) = '[' :: ']' :: [] from rfl]
        simp only [List.cons_append, List.nil_append]
        simp +decide [parseVal]
      | cons x xs2 =>
        rw [show serializableB (JSValue.vArr (x :: xs2)) = serializableElems (x :: xs2)
          from rfl] at hser
        have hplen : (printVal (JSValue.vArr (x :: xs2))).length =
            (printElems (x :: xs2)).length + 2 := by
          rw [show printVal (JSValue.vArr (x :: xs2)) =
            '[' :: printElems (x :: xs2) ++ [']'] from rfl]
          simp
        obtain ⟨c0, r0, hx0, hc0⟩ := printVal_head_ne x
        obtain ⟨t, ht⟩ := printElems_starts x xs2
        have hshape : printElems (x :: xs2) ++ ']' :: rest = c0 :: (r0 ++ (t ++ ']' :: rest)) := by
          rw [ht, hx0]
          simp [List.cons_append, List.append_assoc]
        have hprop : ∀ y ∈ x :: xs2, ∀ r, restSafe r = true →
            parseVal f (printVal y ++ r) = some (y, r) := by
          intro y hy r hr
          refine ih y (serializableElems_mem (x :: xs2) hser y hy) ?_ r hr
          have h1 := mem_printElems_le (x :: xs2) y hy
          omega
        have hlen2 : (x :: xs2).length ≤ f := by
          have := length_le_printElems (x :: xs2)
          omega
        rw [show printVal (.vArr (x :: xs2)) = '[' :: printElems (x :: xs2) ++ [']'] from rfl]
        simp only [List.cons_append, List.append_assoc, List.nil_append]
        simp +decide only [parseVal]
        rw [hshape]
        simp only []
        rw [if_neg hc0]
        rw [← hshape]
        rw [parseListAux_spec (parseVal f) (x :: xs2) (by simp) hprop f hlen2 [] rest]
        simp
    | vObj fs =>
      cases fs with
      | nil =>
        rw [show printVal (.vObj []) = '\x7b' :: '\x7d' :: [] from rfl]
        simp only [List.cons_append, List.nil_append]
        simp +decide [parseVal]
      | cons g gs2 =>
        obtain ⟨k, w⟩ := g
        rw [show serializableB (JSValue.vObj ((k, w) :: gs2)) =
          serializableFields ((k, w) :: gs2) from rfl] at hser
        have hplen : (printVal (JSValue.vObj ((k, w) :: gs2))).length =
            (printFields ((k, w) :: gs2)).length + 2 := by
          rw [show printVal (JSValue.vObj ((k, w) :: gs2)) =
            '\x7b' :: printFields ((k, w) :: gs2) ++ ['\x7d'] from rfl]
          simp
        obtain ⟨t, ht⟩ := printFields_starts k w gs2
        have hshape : printFields ((k, w) :: gs2) ++ '\x7d' :: rest =
            '"' :: ((escapeJSONChars k.data ++ '"' :: ':' :: printVal w ++ t) ++ '\x7d' :: rest) := by
          rw [ht]
          simp [List.cons_append, List.append_assoc]
        have hprop : ∀ kv ∈ (k, w) :: gs2, ∀ r, restSafe r = true →
            parseVal f (printVal kv.2 ++ r) = some (kv.2, r) := by
          intro kv hkv r hr
          refine ih kv.2 (serializableFields_mem ((k, w) :: gs2) hser kv hkv) ?_ r hr
          have h1 := mem_printFields_le ((k, w) :: gs2) kv hkv
          omega
        have hlen2 : ((k, w) :: gs2).length ≤ f := by
          have := length_le_printFields ((k, w) :: gs2)
          omega
        rw [show printVal (.vObj ((k, w) :: gs2)) =
          '\x7b' :: printFields ((k, w) :: gs2) ++ ['\x7d'] from rfl]
        simp only [List.cons_append, List.append_assoc, List.nil_append]
        simp +decide only [parseVal]
        rw [hshape]
        simp +decide only []
        rw [← hshape]
        rw [parseFieldsAux_spec (parseVal f) ((k, w) :: gs2) (by simp) hprop f hlen2 [] rest]
        simp

theorem parseJSON_stringify (v : JSValue) (h : serializableB v = true) :
    parseJSON (stringifyJSON v) = some v := by
  simp only [parseJSON]
  rw [show (stringifyJSON v).data = printVal v from rfl]
  rw [show (stringifyJSON v).length = (printVal v).length from rfl]
  have hp := parseVal_print ((printVal v).length + 1) v h (by omega) [] rfl
  rw [List.append_nil] at hp
  rw [hp]

/-!
## Lemmas: the retry loop
-/

theorem retryLoop_allFail {α : Type} (apiCall : Nat → Except ApiError α) (errs : Nat → ApiError)
    (maxRetries delayMs : Nat)
    (hfail : ∀ n, apiCall n = .error (errs n))
    (hnc : ∀ n, ¬(400 ≤ (errs n).status ∧ (errs n).status < 500)) :
    ∀ d a, 1 ≤ a → a ≤ maxRetries → maxRetries - a = d →
    retryLoop apiCall maxRetries delayMs a =
      ⟨.failure (errs maxRetries), maxRetries + 1 - a,
       (List.range (maxRetries - a)).map (fun k => delayMs * 2 ^ (a - 1 + k))⟩ := by
  intro d
  induction d with
  | zero =>
    intro a h1 h2 hd
    have ha : a = maxRetries := by omega
    subst ha
    rw [retryLoop, if_pos h2, hfail a]
    simp only []
    rw [if_neg (hnc a), if_true]
    have hc : a + 1 - a = 1 := by omega
    rw [hc, Nat.sub_self]
    simp
  | succ d ihd =>
    intro a h1 h2 hd
    have hne : a ≠ maxRetries := by omega
    rw [retryLoop, if_pos h2, hfail a]
    simp only []
    rw [if_neg (hnc a), if_neg hne]
    rw [ihd (a + 1) (by omega) (by omega) (by omega)]
    have hcalls : maxRetries + 1 - (a + 1) + 1 = maxRetries + 1 - a := by omega
    have hrange : maxRetries - a = (maxRetries - (a + 1)) + 1 := by omega
    simp only []
    rw [hcalls, hrange, List.range_succ_eq_map, List.map_cons, List.map_map]
    have hhead : delayMs * 2 ^ (a - 1 + 0) = delayMs * 2 ^ (a - 1) := by
      rw [Nat.add_zero]
    have htail : ∀ k ∈ List.range (maxRetries - (a + 1)),
        ((fun k => delayMs * 2 ^ (a - 1 + k)) ∘ Nat.succ) k =
        (fun k => delayMs * 2 ^ (a + 1 - 1 + k)) k := by
      intro k _
      simp only [Function.comp_apply]
      congr 2
      omega
    rw [List.map_congr_left htail, hhead]

theorem withRetry_allFail {α : Type} (apiCall : Nat → Except ApiError α) (errs : Nat → ApiError)
    (maxRetries delayMs : Nat) (hmr : 1 ≤ maxRetries)
    (hfail : ∀ n, apiCall n = .error (errs n))
    (hnc : ∀ n, ¬(400 ≤ (errs n).status ∧ (errs n).status < 500)) :
    withRetry apiCall maxRetries delayMs =
      ⟨.failure (errs maxRetries), maxRetries,
       (List.range (maxRetries - 1)).map (fun k => delayMs * 2 ^ k)⟩ := by
  rw [withRetry,
    retryLoop_allFail apiCall errs maxRetries delayMs hfail hnc (maxRetries - 1) 1 le_rfl hmr rfl]
  have h1 : maxRetries + 1 - 1 = maxRetries := by omega
  rw [h1]
  have h2 : ∀ k ∈ List.range (maxRetries - 1),
      (fun k => delayMs * 2 ^ (1 - 1 + k)) k = (fun k => delayMs * 2 ^ k) k := by
    intro k _
    show delayMs * 2 ^ (1 - 1 + k) = delayMs * 2 ^ k
    congr 2
    omega
  rw [List.map_congr_left h2]

/-!
## Lemmas: the header object
-/

theorem hLookup_map_set (m : List (String × String)) (k v : String)
    (h : m.any (fun kv => kv.1 == k) = true) :
    hLookup (m.map fun kv => if kv.1 == k then (k, v) else kv) k = some v := by
  induction m with
  | nil => cases h
  | cons kv m ih =>
    by_cases hk : kv.1 = k
    · simp [List.map_cons, hk, hLookup]
    · have hkb : (kv.1 == k) = false := beq_eq_false_iff_ne.mpr hk
      simp only [List.any_cons, hkb, Bool.false_or] at h
      simp only [List.map_cons, hkb, Bool.false_eq_true, if_false, hLookup]
      exact ih h

theorem hLookup_map_ne (m : List (String × String)) (k v k' : String) (h : ¬ k' = k) :
    hLookup (m.map fun kv => if kv.1 == k then (k, v) else kv) k' = hLookup m k' := by
  have hkk : (k == k') = false := beq_eq_false_iff_ne.mpr (fun hh => h hh.symm)
  induction m with
  | nil => rfl
  | cons kv m ih =>
    by_cases hk : kv.1 = k
    · have hkv : (kv.1 == k') = false := by rw [hk]; exact hkk
      simp only [List.map_cons, hk, beq_self_eq_true, if_true, hLookup, hkk, hkv,
        Bool.false_eq_true, if_false]
      exact ih
    · have hkb : (kv.1 == k) = false := beq_eq_false_iff_ne.mpr hk
      simp only [List.map_cons, hkb, Bool.false_eq_true, if_false, hLookup]
      by_cases hk2 : (kv.1 == k') = true
      · simp [hk2]
      · simp only [Bool.not_eq_true] at hk2
        simp only [hk2, Bool.false_eq_true, if_false]
        exact ih

theorem hLookup_append_one (m : List (String × String)) (k v k' : String) (h : ¬ k' = k) :
    hLookup (m ++ [(k, v)]) k' = hLookup m k' := by
  have hkk : (k == k') = false := beq_eq_false_iff_ne.mpr (fun hh => h hh.symm)
  induction m with
  | nil => simp [hLookup, hkk]
  | cons kv m ih =>
    simp only [List.cons_append, hLookup]
    by_cases hk2 : (kv.1 == k') = true
    · simp [hk2]
    · simp only [Bool.not_eq_true] at hk2
      simp only [hk2, Bool.false_eq_true, if_false]
      exact ih

theorem hLookup_append_self (m : List (String × String)) (k v : String)
    (h : m.any (fun kv => kv.1 == k) = false) :
    hLookup (m ++ [(k, v)]) k = some v := by
  induction m with
  | nil => simp [hLookup]
  | cons kv m ih =>
    simp only [List.any_cons, Bool.or_eq_false_iff] at h
    simp only [List.cons_append, hLookup, h.1, Bool.false_eq_true, if_false]
    exact ih h.2

theorem hLookup_hset_self (m : List (String × String)) (k v : String) :
    hLookup (hset m k v) k = some v := by
  rw [hset]
  by_cases h : m.any (fun kv => kv.1 == k) = true
  · rw [if_pos h]
    exact hLookup_map_set m k v h
  · rw [if_neg h]
    exact hLookup_append_self m k v (Bool.eq_false_iff.mpr h)

theorem hLookup_hset_ne (m : List (String × String)) (k v k' : String) (h : ¬ k' = k) :
    hLookup (hset m k v) k' = hLookup m k' := by
  rw [hset]
  by_cases hany : m.any (fun kv => kv.1 == k) = true
  · rw [if_pos hany]
    exact hLookup_map_ne m k v k' h
  · rw [if_neg hany]
    exact hLookup_append_one m k v k' h

theorem hLookup_hmerge_absent (extra : List (String × String)) (k : String)
    (h : ∀ kv ∈ extra, kv.1 ≠ k) :
    ∀ base, hLookup (hmerge base extra) k = hLookup base k := by
  induction extra with
  | nil => intro base; rfl
  | cons e extra ih =>
    intro base
    rw [show hmerge base (e :: extra) = hmerge (hset base e.1 e.2) extra from rfl]
    rw [ih (fun kv hkv => h kv (List.mem_cons_of_mem e hkv)) (hset base e.1 e.2)]
    exact hLookup_hset_ne base e.1 e.2 k
      (fun hh => h e (List.mem_cons_self ..) (by rw [hh]))

theorem hLookup_hmerge_mem (extra : List (String × String)) (k v : String)
    (hnd : (extra.map Prod.fst).Nodup) (hmem : (k, v) ∈ extra) :
    ∀ base, hLookup (hmerge base extra) k = some v := by
  induction extra with
  | nil => cases hmem
  | cons e extra ih =>
    intro base
    rw [List.map_cons, List.nodup_cons] at hnd
    rcases List.mem_cons.mp hmem with hmem | hmem
    · subst hmem
      rw [show hmerge base ((k, v) :: extra) = hmerge (hset base k v) extra from rfl]
      have habs : ∀ kv ∈ extra, kv.1 ≠ k := by
        intro kv hkv hkeq
        have hmm : kv.1 ∈ extra.map Prod.fst := List.mem_map_of_mem Prod.fst hkv
        rw [hkeq] at hmm
        exact hnd.1 hmm
      rw [hLookup_hmerge_absent extra k habs (hset base k v)]
      exact hLookup_hset_self base k v
    · rw [show hmerge base (e :: extra) = hmerge (hset base e.1 e.2) extra from rfl]
      exact ih hnd.2 hmem (hset base e.1 e.2)

theorem retryLoop_calls_le {α : Type} (apiCall : Nat → Except ApiError α)
    (maxRetries delayMs : Nat) :
    ∀ d a, maxRetries + 1 - a = d →
    (retryLoop apiCall maxRetries delayMs a).calls ≤ maxRetries + 1 - a := by
  intro d
  induction d with
  | zero =>
    intro a hd
    rw [retryLoop, if_neg (by omega)]
    show 0 ≤ maxRetries + 1 - a
    omega
  | succ d ihd =>
    intro a hd
    rw [retryLoop]
    by_cases hle : a ≤ maxRetries
    · rw [if_pos hle]
      cases hc : apiCall a with
      | ok v =>
        show 1 ≤ maxRetries + 1 - a
        omega
      | error e =>
        simp only []
        by_cases h4 : 400 ≤ e.status ∧ e.status < 500
        · rw [if_pos h4]
          show 1 ≤ maxRetries + 1 - a
          omega
        · rw [if_neg h4]
          by_cases hlast : a = maxRetries
          · rw [if_pos hlast]
            show 1 ≤ maxRetries + 1 - a
            omega
          · rw [if_neg hlast]
            have hrec := ihd (a + 1) (by omega)
            show (retryLoop apiCall maxRetries delayMs (a + 1)).calls + 1 ≤ maxRetries + 1 - a
            omega
    · rw [if_neg hle]
      show 0 ≤ maxRetries + 1 - a
      omega

theorem retryLoop_failThenSuccess {α : Type} (apiCall : Nat → Except ApiError α)
    (errs : Nat → ApiError) (maxRetries delayMs s : Nat) (v : α)
    (hs2 : s ≤ maxRetries)
    (hsucc : apiCall s = Except.ok v)
    (hfail : ∀ n, n < s → apiCall n = Except.error (errs n))
    (hnc : ∀ n, ¬(400 ≤ (errs n).status ∧ (errs n).status < 500)) :
    ∀ d a, 1 ≤ a → a ≤ s → s - a = d →
    retryLoop apiCall maxRetries delayMs a =
      ⟨.success v, s - a + 1, (List.range (s - a)).map fun k => delayMs * 2 ^ (a - 1 + k)⟩ := by
  intro d
  induction d with
  | zero =>
    intro a h1 h2 hd
    have ha : a = s := by omega
    subst ha
    rw [retryLoop, if_pos (by omega), hsucc, Nat.sub_self]
    simp
  | succ d ihd =>
    intro a h1 h2 hd
    rw [retryLoop, if_pos (by omega), hfail a (by omega)]
    simp only []
    rw [if_neg (hnc a), if_neg (show ¬ a = maxRetries by omega)]
    rw [ihd (a + 1) (by omega) (by omega) (by omega)]
    have hcalls : s - (a + 1) + 1 + 1 = s - a + 1 := by omega
    have hrange : s - a = (s - (a + 1)) + 1 := by omega
    simp only []
    rw [hcalls, hrange, List.range_succ_eq_map, List.map_cons, List.map_map]
    have hhead : delayMs * 2 ^ (a - 1 + 0) = delayMs * 2 ^ (a - 1) := by
      rw [Nat.add_zero]
    have htail : ∀ k ∈ List.range (s - (a + 1)),
        ((fun k => delayMs * 2 ^ (a - 1 + k)) ∘ Nat.succ) k =
        (fun k => delayMs * 2 ^ (a + 1 - 1 + k)) k := by
      intro k _
      simp only [Function.comp_apply]
      congr 2
      omega
    rw [List.map_congr_left htail, hhead]

/-!
## Concrete values used by the claim witnesses and counterexamples
-/

/-- A retryable 5xx failure (spec Scenario E). -/
def err503 : ApiError := ⟨"Service Unavailable", 503, .vStr "Service Unavailable"⟩

/-- A non-retryable 401 client failure (spec Scenario B). -/
def clientError401 : ApiError :=
  ⟨"Invalid API key", 401, .vObj [("message", .vStr "Invalid API key")]⟩

/-- Message of the `TypeError` thrown by `data.message` when `data` is
`null` (V8 wording). -/
def nullTypeErrorMessage : String := "Cannot read properties of null (reading 'message')"

/-- A 200 response whose declared-JSON body fails to parse, so
`response.json()` rejects. -/
def badJsonResp200 : Response :=
  ⟨200, "OK", some "application/json", .error "Unexpected end of JSON input", "not json"⟩

/-- A JSON response whose parse outcome records a rejected `fetch`-style
message (used to exercise the parse-rejection path). -/
def rejectedJsonResp : Response :=
  ⟨500, "Internal Server Error", some "application/json", .error "Failed to fetch", ""⟩

/-- A 500 response with the JSON body `null`. -/
def nullBodyResp500 : Response :=
  ⟨500, "Internal Server Error", some "application/json", .ok .vNull, "null"⟩

/-- A 503 response with the JSON body `null`. -/
def nullBodyResp503 : Response :=
  ⟨503, "Service Unavailable", some "application/json", .ok .vNull, "null"⟩

/-- The stats body of spec Scenario A. -/
def statsBody : JSValue :=
  .vObj [("todayReservations", .vNum 12), ("totalReservations", .vNum 150),
    ("cancelledToday", .vNum 2)]

/-- A 200 response carrying `statsBody`. -/
def okStatsResp : Response := ⟨200, "OK", some "application/json", .ok statsBody, ""⟩

/-- The POST body of spec Scenario D. -/
def johnBody : JSValue := .vObj [("name", .vStr "John")]

/-!
## The claims
-/

/-- C1: for a thunk all of whose failures are retryable (status 0 or
5xx), `withRetry` makes exactly `maxRetries` attempts when every attempt
fails, waits `delayMs * 2 ^ (n - 1)` milliseconds after failed attempt
`n` for `n < maxRetries` (so the wait list is
`[delayMs * 2 ^ 0, ..., delayMs * 2 ^ (maxRetries - 2)]`, with no wait
after the final attempt), and re-raises the failure of the final attempt
unchanged; for every thunk the number of attempts never exceeds
`maxRetries`; and when the first `s - 1` attempts fail retryably and
attempt `s` succeeds, the value is returned after exactly `s` attempts
with exactly the waits for the failed attempts. -/
theorem claim1_retryable_backoff {α : Type} (apiCall : Nat → Except ApiError α)
    (errs : Nat → ApiError) (maxRetries delayMs : Nat)
    (hmr : 1 ≤ maxRetries)
    (hfail : ∀ n, apiCall n = Except.error (errs n))
    (hretryable : ∀ n, (errs n).status = 0 ∨ (500 ≤ (errs n).status ∧ (errs n).status ≤ 599)) :
    withRetry apiCall maxRetries delayMs =
      ⟨.failure (errs maxRetries), maxRetries,
       (List.range (maxRetries - 1)).map fun k => delayMs * 2 ^ k⟩
    ∧ (∀ apiCall2 : Nat → Except ApiError α,
        (withRetry apiCall2 maxRetries delayMs).calls ≤ maxRetries)
    ∧ (∀ (apiCall3 : Nat → Except ApiError α) (errs3 : Nat → ApiError) (s : Nat) (v : α),
        1 ≤ s → s ≤ maxRetries → apiCall3 s = Except.ok v →
        (∀ n, n < s → apiCall3 n = Except.error (errs3 n)) →
        (∀ n, (errs3 n).status = 0 ∨ (500 ≤ (errs3 n).status ∧ (errs3 n).status ≤ 599)) →
        withRetry apiCall3 maxRetries delayMs =
          ⟨.success v, s, (List.range (s - 1)).map fun k => delayMs * 2 ^ k⟩) := by
  refine ⟨?_, ?_, ?_⟩
  · exact withRetry_allFail apiCall errs maxRetries delayMs hmr hfail
      (fun n => by rcases hretryable n with h | h <;> omega)
  · intro apiCall2
    have h := retryLoop_calls_le apiCall2 maxRetries delayMs maxRetries 1 (by omega)
    rw [withRetry]
    omega
  · intro apiCall3 errs3 s v hs1 hs2 hsucc hfail3 hretry3
    rw [withRetry,
      retryLoop_failThenSuccess apiCall3 errs3 maxRetries delayMs s v hs2 hsucc hfail3
        (fun n => by rcases hretry3 n with h | h <;> omega) (s - 1) 1 le_rfl hs1 rfl]
    have hc : s - 1 + 1 = s := by omega
    rw [hc]
    have h2 : ∀ k ∈ List.range (s - 1),
        (fun k => delayMs * 2 ^ (1 - 1 + k)) k = (fun k => delayMs * 2 ^ k) k := by
      intro k _
      show delayMs * 2 ^ (1 - 1 + k) = delayMs * 2 ^ k
      congr 2
      omega
    rw [List.map_congr_left h2]

/-- C1 witness: three attempts at `err503`, waits 1000 ms and 2000 ms,
final failure re-raised. -/
theorem claim1_witness :
    (err503.status = 0 ∨ (500 ≤ err503.status ∧ err503.status ≤ 599))
    ∧ withRetry (fun _ => (Except.error err503 : Except ApiError JSValue)) 3 1000 =
      ⟨.failure err503, 3, [1000, 2000]⟩ := by
  refine ⟨Or.inr (by decide), ?_⟩
  have h := (claim1_retryable_backoff (fun _ => (Except.error err503 : Except ApiError JSValue))
    (fun _ => err503) 3 1000 (by omega) (fun _ => rfl)
    (fun _ => Or.inr (show 500 ≤ err503.status ∧ err503.status ≤ 599 by decide))).1
  rw [h]
  rfl

/-- C2 counterexample: with `maxRetries = 0` the claim's "exactly one
attempt regardless of maxRetries" fails — the loop never runs, the thunk
is never invoked, and the 401 failure is not re-raised. -/
theorem claim2_counterexample :
    withRetry (fun _ => (Except.error clientError401 : Except ApiError JSValue)) 0 1000 =
      ⟨.undef, 0, []⟩
    ∧ (withRetry (fun _ => (Except.error clientError401 : Except ApiError JSValue)) 0 1000).calls
      ≠ 1 := by
  constructor
  · rw [withRetry, retryLoop]
    simp
  · rw [withRetry, retryLoop]
    simp

/-- C2 (amended: for `maxRetries ≥ 1`): a thunk whose first failure has
status in [400, 499] is attempted exactly once; the failure is re-raised
unchanged (status preserved) with no waits, however large `maxRetries`
is. -/
theorem claim2_client_error_single_attempt {α : Type} (apiCall : Nat → Except ApiError α)
    (maxRetries delayMs : Nat) (e : ApiError) (hmr : 1 ≤ maxRetries)
    (h1 : apiCall 1 = Except.error e) (h4 : 400 ≤ e.status) (h5 : e.status ≤ 499) :
    withRetry apiCall maxRetries delayMs = ⟨.failure e, 1, []⟩ := by
  rw [withRetry, retryLoop, if_pos hmr, h1]
  simp only []
  rw [if_pos ⟨h4, by omega⟩]

/-- C2 witness: one attempt at the 401 failure even with
`maxRetries = 3`. -/
theorem claim2_witness :
    (1 : Nat) ≤ 3 ∧ 400 ≤ clientError401.status ∧ clientError401.status ≤ 499
    ∧ withRetry (fun _ => (Except.error clientError401 : Except ApiError JSValue)) 3 1000 =
      ⟨.failure clientError401, 1, []⟩ :=
  ⟨by omega, by decide, by decide,
    claim2_client_error_single_attempt _ 3 1000 clientError401 (by omega) rfl
      (by decide) (by decide)⟩

/-- C9: with `maxRetries` below 1 the retry loop never executes — the
thunk is invoked zero times, no waits occur, and the call resolves to
JavaScript `undefined` (neither a success value nor a typed failure). -/
theorem claim9_zero_retries {α : Type} (apiCall : Nat → Except ApiError α)
    (maxRetries delayMs : Nat) (h : maxRetries < 1) :
    withRetry apiCall maxRetries delayMs = ⟨.undef, 0, []⟩ := by
  rw [withRetry, retryLoop, if_neg (by omega)]

/-- C9 witness: `maxRetries = 0` yields `undefined` with zero thunk
invocations. -/
theorem claim9_witness :
    (0 : Nat) < 1
    ∧ withRetry (fun _ => (Except.ok JSValue.vNull : Except ApiError JSValue)) 0 1000 =
      ⟨.undef, 0, []⟩ :=
  ⟨by decide, claim9_zero_retries _ 0 1000 (by decide)⟩

/-- C10: each convenience wrapper forces its own HTTP method after
spreading the caller's options, so the issued request's method is fixed
even when the caller's options carry a conflicting `method` field. -/
theorem claim10_method_forced (opts : RequestOptions) (u e : String) (key : Option String)
    (d : JSValue) :
    (buildRequest u e key (apiGetOptions opts)).method = some "GET"
    ∧ (buildRequest u e key (apiPostOptions d opts)).method = some "POST"
    ∧ (buildRequest u e key (apiPatchOptions d opts)).method = some "PATCH"
    ∧ (buildRequest u e key (apiDeleteOptions opts)).method = some "DELETE" :=
  ⟨rfl, rfl, rfl, rfl⟩

/-- C10 witness: even options carrying `method: 'DELETE'` are issued as
GET by `api.get`. -/
theorem claim10_witness :
    (buildRequest "https://api.example.com" "/reservations" (some "k")
      (apiGetOptions ⟨some "DELETE", none, []⟩)).method = some "GET" :=
  (claim10_method_forced ⟨some "DELETE", none, []⟩ "https://api.example.com" "/reservations"
    (some "k") .vNull).1

/-- Evaluation of `fetchWithAuth` on a response whose body parses
successfully: the 2xx test decides between returning the body and
constructing the typed failure. -/
theorem fetchWithAuth_resp_parsed (r : Response) (d : JSValue)
    (hparse : parseResponseBody r = Except.ok d) :
    fetchWithAuth (.resp r) =
      if r.ok then Except.ok d
      else match errorMessageValue d r.status r.statusText with
        | .error m => Except.error (networkApiError m)
        | .ok mv => Except.error ⟨jsToString mv, r.status, d⟩ := by
  simp only [fetchWithAuth]
  rw [hparse]

/-- C3 counterexample to `success ↔ 2xx`: a 200 response whose
declared-JSON body fails to parse makes the executor fail (with the
status-0 network failure), despite the 2xx status. -/
theorem claim3_counterexample :
    badJsonResp200.status = 200
    ∧ fetchWithAuth (.resp badJsonResp200) =
      Except.error (networkApiError "Unexpected end of JSON input") :=
  ⟨rfl, rfl⟩

/-- C3 (amended: provided the body parses): the executor succeeds if and
only if the status is in the 2xx range, on success returns the parsed
body unchanged (JSON-parsed body for a JSON content type, raw text
otherwise, both via `parseResponseBody`), and `withRetry` around a thunk
succeeding on its first attempt returns that value after exactly one
attempt with no waits. -/
theorem claim3_success_iff_2xx (r : Response) (d : JSValue)
    (hparse : parseResponseBody r = Except.ok d) :
    ((∃ v, fetchWithAuth (.resp r) = Except.ok v) ↔ (200 ≤ r.status ∧ r.status ≤ 299))
    ∧ (200 ≤ r.status → r.status ≤ 299 → fetchWithAuth (.resp r) = Except.ok d)
    ∧ (∀ (α : Type) (apiCall : Nat → Except ApiError α) (v : α) (maxRetries delayMs : Nat),
        apiCall 1 = Except.ok v → 1 ≤ maxRetries →
        withRetry apiCall maxRetries delayMs = ⟨.success v, 1, []⟩) := by
  have hcore := fetchWithAuth_resp_parsed r d hparse
  have hok_iff : r.ok = true ↔ (200 ≤ r.status ∧ r.status ≤ 299) := by
    rw [Response.ok]
    simp [Bool.and_eq_true, decide_eq_true_eq]
  refine ⟨⟨?_, ?_⟩, ?_, ?_⟩
  · rintro ⟨v, hv⟩
    rw [hcore] at hv
    by_cases hok : r.ok = true
    · exact hok_iff.mp hok
    · rw [if_neg hok] at hv
      cases hm : errorMessageValue d r.status r.statusText with
      | error m => rw [hm] at hv; simp at hv
      | ok mv => rw [hm] at hv; simp at hv
  · intro hst
    exact ⟨d, by rw [hcore, if_pos (hok_iff.mpr hst)]⟩
  · intro h200 h299
    rw [hcore, if_pos (hok_iff.mpr ⟨h200, h299⟩)]
  · intro α apiCall v maxRetries delayMs h1 hmr
    rw [withRetry, retryLoop, if_pos hmr, h1]

/-- C3 witness: Scenario A — a 200 JSON response yields its body
unchanged, and a succeeding thunk retries no further. -/
theorem claim3_witness :
    parseResponseBody okStatsResp = Except.ok statsBody
    ∧ fetchWithAuth (.resp okStatsResp) = Except.ok statsBody
    ∧ withRetry (fun _ => (Except.ok statsBody : Except ApiError JSValue)) 3 1000 =
      ⟨.success statsBody, 1, []⟩ := by
  have h := claim3_success_iff_2xx okStatsResp statsBody rfl
  exact ⟨rfl, h.2.1 (by decide) (by decide),
    h.2.2 JSValue _ statsBody 3 1000 rfl (by omega)⟩

/-- C4 evaluated at the failing input: with `config.isDevelopment` true,
a call carrying a caller-supplied body that is not valid JSON — e.g.
`api.get('/x', (body: 'oops'))` — makes the logging block at api.js line
182 throw an uncaught `SyntaxError` before the try block, so an untyped
error escapes the client boundary, contradicting the claim's no-escape
invariant.  The same call in production mode, and the transport branches
inside the try/catch, do produce exactly the claimed typed status-0
failure; in production mode no untyped error can escape. -/
theorem claim4_untyped_escape :
    fetchWithAuthDev true (apiGetOptions ⟨none, some "oops", []⟩) (.reject "Failed to fetch") =
      Except.error (bodyParseErrorMessage "oops")
    ∧ fetchWithAuthDev false (apiGetOptions ⟨none, some "oops", []⟩) (.reject "Failed to fetch") =
      Except.ok (Except.error (networkApiError "Failed to fetch"))
    ∧ fetchWithAuth (.reject "Failed to fetch") =
      Except.error (networkApiError "Failed to fetch")
    ∧ fetchWithAuth (.resp rejectedJsonResp) =
      Except.error (networkApiError "Failed to fetch")
    ∧ (networkApiError "Failed to fetch").message = networkErrorMessage
    ∧ (networkApiError "Failed to fetch").status = 0
    ∧ (networkApiError "Failed to fetch").data =
      .vObj [("originalError", .vStr "Failed to fetch")]
    ∧ ∀ (options : RequestOptions) (outcome : FetchOutcome),
        fetchWithAuthDev false options outcome = Except.ok (fetchWithAuth outcome) :=
  ⟨rfl, rfl, rfl, rfl, rfl, rfl, rfl, fun _ _ => rfl⟩

/-- C5 evaluated at the failing input: for a 500 response with JSON body
`null`, the message-priority rule is not applied — evaluating
`data.message` throws (`typeof null === 'object'`), so the failure is the
status-0 network failure, whose message differs from the claimed
fallback `"HTTP 500: Internal Server Error"`. -/
theorem claim5_null_body_message :
    fetchWithAuth (.resp nullBodyResp500) =
      Except.error (networkApiError nullTypeErrorMessage)
    ∧ (networkApiError nullTypeErrorMessage).message ≠
      httpFallbackMessage 500 "Internal Server Error"
    ∧ nullBodyResp500.status = 500 :=
  ⟨rfl, by decide, rfl⟩

/-- C6 evaluated at the failing input: for a 503 response with JSON body
`null`, the typed failure's status is 0, not the real HTTP status
503. -/
theorem claim6_null_body_status :
    fetchWithAuth (.resp nullBodyResp503) =
      Except.error (networkApiError nullTypeErrorMessage)
    ∧ (networkApiError nullTypeErrorMessage).status = 0
    ∧ nullBodyResp503.status = 503
    ∧ (networkApiError nullTypeErrorMessage).status ≠ nullBodyResp503.status :=
  ⟨rfl, rfl, rfl, by decide⟩

/-- C7 counterexample: a caller-supplied `X-API-Key` header does NOT take
precedence — the configured key is assigned after the spread and
overwrites it. -/
theorem claim7_counterexample :
    hLookup (buildHeaders [("X-API-Key", "caller-key")] (some "config-key")) "X-API-Key" =
      some "config-key"
    ∧ some "config-key" ≠ some "caller-key" :=
  ⟨rfl, by decide⟩

/-- C7 (amended): every request carries `Content-Type: application/json`
unless the caller overrides it (the caller's value wins for
`Content-Type`), and carries `X-API-Key` with the configured credential
whenever one is configured — overwriting any caller-supplied value; with
no credential configured and none supplied by the caller, the request
goes out without the credential header. -/
theorem claim7_headers (hs : List (String × String)) (key ctv : String) (hkey : ¬ key = "") :
    hLookup (buildHeaders hs (some key)) "X-API-Key" = some key
    ∧ ((∀ kv ∈ hs, kv.1 ≠ "X-API-Key") →
        hLookup (buildHeaders hs none) "X-API-Key" = none)
    ∧ ((∀ kv ∈ hs, kv.1 ≠ "Content-Type") →
        hLookup (buildHeaders hs (some key)) "Content-Type" = some "application/json"
        ∧ hLookup (buildHeaders hs none) "Content-Type" = some "application/json")
    ∧ ((hs.map Prod.fst).Nodup → ("Content-Type", ctv) ∈ hs →
        hLookup (buildHeaders hs (some key)) "Content-Type" = some ctv
        ∧ hLookup (buildHeaders hs none) "Content-Type" = some ctv) := by
  have hb : buildHeaders hs (some key) =
      hset (hmerge [("Content-Type", "application/json")] hs) "X-API-Key" key := by
    simp only [buildHeaders]
    rw [if_neg hkey]
  have hbn : buildHeaders hs none = hmerge [("Content-Type", "application/json")] hs := rfl
  refine ⟨?_, ?_, ?_, ?_⟩
  · rw [hb]
    exact hLookup_hset_self _ "X-API-Key" key
  · intro habs
    rw [hbn, hLookup_hmerge_absent hs "X-API-Key" habs]
    rfl
  · intro habs
    constructor
    · rw [hb, hLookup_hset_ne _ "X-API-Key" key "Content-Type" (by decide)]
      rw [hLookup_hmerge_absent hs "Content-Type" habs]
      rfl
    · rw [hbn, hLookup_hmerge_absent hs "Content-Type" habs]
      rfl
  · intro hnd hmem
    constructor
    · rw [hb, hLookup_hset_ne _ "X-API-Key" key "Content-Type" (by decide)]
      exact hLookup_hmerge_mem hs "Content-Type" ctv hnd hmem _
    · rw [hbn]
      exact hLookup_hmerge_mem hs "Content-Type" ctv hnd hmem _

/-- C7 witness: with headers supplied by the caller, the caller's
`Content-Type` wins while the configured `X-API-Key` is attached. -/
theorem claim7_witness :
    ¬ "secret" = ""
    ∧ ([("Content-Type", "text/plain"), ("X-Custom", "1")].map Prod.fst).Nodup
    ∧ hLookup (buildHeaders [("Content-Type", "text/plain"), ("X-Custom", "1")]
        (some "secret")) "X-API-Key" = some "secret"
    ∧ hLookup (buildHeaders [("Content-Type", "text/plain"), ("X-Custom", "1")]
        (some "secret")) "Content-Type" = some "text/plain" := by
  have h := claim7_headers [("Content-Type", "text/plain"), ("X-Custom", "1")] "secret"
    "text/plain" (by decide)
  exact ⟨by decide, by decide, h.1, (h.2.2.2 (by decide) (by decide)).1⟩

/-- C8: `api.post` and `api.patch` transmit exactly
`JSON.stringify(body)`; parsing the transmitted text back recovers a
structure equal to the original (round trip); `api.get` and `api.delete`
attach no body of their own (the options' body passes through
untouched). -/
theorem claim8_body_roundtrip (d : JSValue) (opts : RequestOptions)
    (hser : serializableB d = true) :
    (apiPostOptions d opts).body = some (stringifyJSON d)
    ∧ (apiPatchOptions d opts).body = some (stringifyJSON d)
    ∧ parseJSON (stringifyJSON d) = some d
    ∧ (apiGetOptions opts).body = opts.body
    ∧ (apiDeleteOptions opts).body = opts.body :=
  ⟨rfl, rfl, parseJSON_stringify d hser, rfl, rfl⟩

/-- C8 witness: Scenario D — the body `(name: John)` round-trips through
the transmitted JSON text. -/
theorem claim8_witness :
    serializableB johnBody = true
    ∧ (apiPostOptions johnBody {}).body = some (stringifyJSON johnBody)
    ∧ parseJSON (stringifyJSON johnBody) = some johnBody := by
  have h := claim8_body_roundtrip johnBody {} rfl
  exact ⟨rfl, h.1, h.2.2.1⟩
